import Mathlib

/-
Verification of the auxiliary-engine coordination layer of
src/src/mcts/auxengine.cc (Leela Chess Zero fork, file auxengine.cc).

The embedding below is a shallow model of that file.  The search tree, the
chess board, positions and move parsing are external collaborators of the
subsystem (spec sections 1 and 3), so they appear here as abstract types and
function parameters; everything that the subsystem itself does (queue
manipulation, purge, admission control, line decoding, the protocol read
loop) is translated directly from the C++ source.
-/

namespace AuxEngineSpec

/- ------------------------------------------------------------------
Move-boundary purge, Search::AuxEngineWorker, auxengine.cc lines 225-248.

The work queue is a flat std::queue whose elements alternate between the
queued node (even positions) and its recorded parent marker (odd
positions).  The loop pops two elements per iteration while the loop index
is below the queue size snapshot, and keeps the node (only the node) when
its parent marker equals the current root; retained nodes are pushed onto a
temporary queue and afterwards appended back, preserving order.  For a
queue that consists exactly of such lockstep pairs the snapshot equals the
length, so the loop consumes the whole queue; the function below renders
that loop (an odd-length queue would underflow std::queue::front in the
source, hence the catch-all arm is never reached on pair queues).
------------------------------------------------------------------- -/

def purgeLoop {α : Type} [DecidableEq α] (root : α) : List α → List α
  | n :: p :: rest => if p = root then n :: purgeLoop root rest else purgeLoop root rest
  | _ => []

/-- Lay a list of (node, parent marker) pairs out as the flat alternating
queue that the source maintains. -/
def flattenPairs {α : Type} : List (α × α) → List α
  | [] => []
  | (n, p) :: rest => n :: p :: flattenPairs rest

/- ------------------------------------------------------------------
Purge latch, Search::AuxEngineWorker, auxengine.cc lines 222-281.

The purge block is guarded by search_stats_->final_purge_run.  After
purging, line 280 of the source is the bare expression statement

  search_stats_->final_purge_run;

(with the comment "Inform other threads that they should not purge"): it
reads the flag and discards the value, it does not assign to it.  The
state transition below renders exactly that: the latch field of the result
is copied unchanged from the input.
------------------------------------------------------------------- -/

structure PurgeStats where
  final_purge_run : Bool
  persistent_queue_of_nodes : List Nat
  nodes_added_by_the_helper : List Nat
  deriving DecidableEq

/-- One execution of the purge check of AuxEngineWorker (thread zero,
lines 222-281).  The returned Bool records whether the purge body ran. -/
def purgeCheck (root : Nat) (st : PurgeStats) : PurgeStats × Bool :=
  if st.final_purge_run then (st, false)
  else
    ({ final_purge_run := st.final_purge_run,
       persistent_queue_of_nodes := purgeLoop root st.persistent_queue_of_nodes,
       nodes_added_by_the_helper := purgeLoop root st.nodes_added_by_the_helper },
     true)

/- ------------------------------------------------------------------
SearchWorker::AuxMaybeEnqueueNode, auxengine.cc lines 69-90.

If the global stop flag is set the call returns before touching anything.
Otherwise it sets the pending marker of the node (SetAuxEngineMove with the
magic value 0xfffe), pushes the node onto persistent_queue_of_nodes, pushes
the source tag onto source_of_queued_nodes, and calls notify_one on the
condition variable.  The Nat in the result counts notify_one calls.
------------------------------------------------------------------- -/

structure EnqueueState where
  pendingMarker : Nat → Nat
  queue : List Nat
  sources : List Int

def auxMaybeEnqueueNode (stopFlag : Bool) (st : EnqueueState) (n : Nat) (source : Int) :
    EnqueueState × Nat :=
  if stopFlag then (st, 0)
  else
    ({ pendingMarker := fun m => if m = n then 0xfffe else st.pendingMarker m,
       queue := st.queue ++ [n],
       sources := st.sources ++ [source] },
     1)

/- ------------------------------------------------------------------
Admission control, Search::DoAuxEngine, auxengine.cc lines 490-506.

If the work queue is nonempty, a sample is drawn, and when depth > 0,
depth > GetAuxEngineMaxDepth() and 1/depth < sample the task is re-queued:
the source tag at the front of source_of_queued_nodes is popped, the node
is pushed to the back of persistent_queue_of_nodes and the tag to the back
of source_of_queued_nodes, and DoAuxEngine returns without analysing.
Otherwise execution continues into the analysis.  The Bool in the result
is true exactly when the task is analysed immediately.  The sample type is
any linear ordered field so that the same definition serves both the real
valued probability statement and concrete rational evaluation.
------------------------------------------------------------------- -/

structure WorkQueues where
  nodes : List Nat
  sources : List Int
  deriving DecidableEq

def admissionStep {α : Type} [LinearOrderedField α] (st : WorkQueues) (n : Nat)
    (depth maxDepth : Int) (sample : α) : WorkQueues × Bool :=
  if 0 < st.nodes.length ∧ 0 < depth ∧ maxDepth < depth ∧ (1 : α) / (depth : α) < sample then
    ({ nodes := st.nodes ++ [n],
       sources := st.sources.tail ++ [st.sources.headD 0] },
     false)
  else (st, true)

/- ------------------------------------------------------------------
PV decode, Search::AuxEncode_and_Enqueue, auxengine.cc lines 352-457.

The routine receives one protocol line.  Board, position and move types
belong to external collaborators, so they are abstract here; the record
DecodeEnv packages the collaborator operations the routine calls
(Move::ParseMove, ChessBoard::GetModernMove, ChessBoard::flipped,
Move::Mirror, ChessBoard::ApplyMove, ChessBoard::Mirror, the Position
constructor, and Move::as_packed_int).  The line is modelled as its
whitespace-separated tokens, which is what the istringstream extraction
produces.
------------------------------------------------------------------- -/

abbrev Token := String

structure DecodeEnv (M B P : Type) where
  parseMove : Token → Bool → Option M
  getModernMove : B → M → M
  flipped : B → Bool
  mirrorMove : M → M
  applyMove : B → M → B
  mirrorBoard : B → B
  posStep : P → M → P
  asPackedInt : M → Nat

/-- The local variables of AuxEncode_and_Enqueue that evolve while the
line is scanned: my_board, my_position, flip, pv_length, depth_reached,
pv_moves and my_moves_from_the_white_side. -/
structure DecState (M B P : Type) where
  board : B
  pos : P
  flip : Bool
  pvLen : Int
  depthReached : Int
  pvMoves : List Nat
  myMovesFromWhiteSide : List M
  deriving DecidableEq

/-- The body of the inner pv while-loop for one successfully read token
(auxengine.cc lines 407-431).  Returns none when Move::ParseMove rejects
the token (the loop then breaks); otherwise performs the modern-encoding
conversion, the board and position updates and the two mirror steps in
source order, appends the move, flips the perspective and bumps
pv_length. -/
def decodeMoveToken {M B P : Type} (env : DecodeEnv M B P) (t : Token)
    (st : DecState M B P) : Option (DecState M B P) :=
  match env.parseMove t (!st.flip) with
  | none => none
  | some m =>
    let m1 := env.getModernMove st.board m
    let m2 := if env.flipped st.board then env.mirrorMove m1 else m1
    let m3 := env.getModernMove st.board m2
    let board2 := env.applyMove st.board m
    let pos2 := env.posStep st.pos m3
    let m4 := if env.flipped board2 then env.mirrorMove m3 else m3
    some { st with
      board := env.mirrorBoard board2,
      pos := pos2,
      myMovesFromWhiteSide := st.myMovesFromWhiteSide ++ [m4],
      pvMoves := st.pvMoves ++ [env.asPackedInt m4],
      flip := !st.flip,
      pvLen := st.pvLen + 1 }

def parseDigitsAux : List Char → Nat → Option Nat
  | [], acc => some acc
  | c :: cs, acc =>
    if c.isDigit then parseDigitsAux cs (acc * 10 + (c.toNat - 48)) else none

/-- Integer extraction for the token following the depth keyword, the
stream read iss >> depth_reached at line 398.  A token that is not an
integer leaves the stream in the failed state (the value is set to 0 and
the enclosing while-loop terminates); the model reads the whole token as
an optionally negated digit string. -/
def parseIntToken (s : Token) : Option Int :=
  match s.data with
  | [] => none
  | '-' :: cs =>
    match cs with
    | [] => none
    | _ => (parseDigitsAux cs 0).map (fun n => -(n : Int))
  | cs => (parseDigitsAux cs 0).map (fun n => (n : Int))

/-- True when the token is none of the four keywords the outer scanning
loop of AuxEncode_and_Enqueue reacts to. -/
def notKeyword (u : Token) : Bool :=
  !(u == "info" || u == "string" || u == "depth" || u == "pv")

/-- The two nested while-loops of AuxEncode_and_Enqueue (lines 388-434)
as a single left-to-right pass over the token list.  The Bool argument
records whether the scan is currently inside the pv token run (the inner
loop at lines 404-432).  In the source the inner loop condition reads a
token first and tests pv_length afterwards, so a token is consumed even
when the bound check or the move parse fails, and scanning then resumes
in the outer loop on the following token; both exits are rendered by
switching the mode flag back to false while dropping the consumed token.
The value none renders the early return on an info string line (line
394), which skips the publication entirely.  -/
def auxScan {M B P : Type} (env : DecodeEnv M B P) (require : Bool) :
    List Token → Bool → DecState M B P → Option (DecState M B P)
  | [], _, st => some st
  | t :: rest, true, st =>
    if st.pvLen < st.depthReached ∧ st.pvLen < 99 then
      match decodeMoveToken env t st with
      | some st2 => auxScan env require rest true st2
      | none => auxScan env require rest false st
    else auxScan env require rest false st
  | t :: rest, false, st =>
    if t = "info" then auxScan env require rest false st
    else if t = "string" then none
    else if t = "depth" then
      match rest with
      | [] => some { st with depthReached := 0 }
      | dTok :: rest2 =>
        match parseIntToken dTok with
        | some v => auxScan env require rest2 false { st with depthReached := v }
        | none => some { st with depthReached := 0 }
    else if t = "pv" ∧ (require = false ∨ 14 < st.depthReached) then
      auxScan env require rest true st
    else auxScan env require rest false st

/-- The state in which AuxEncode_and_Enqueue starts scanning: flip is
IsBlackToMove xor (depth mod 2 = 0) (line 376), pv_length is 1,
depth_reached is 0, pv_moves is empty, and my_moves_from_the_white_side
already holds the path from the root that DoAuxEngine passed in. -/
def initDecState {M B P : Type} (blackToMove : Bool) (depth : Int) (b : B) (p : P)
    (myMoves : List M) : DecState M B P :=
  { board := b, pos := p,
    flip := xor blackToMove (decide (depth % 2 = 0)),
    pvLen := 1, depthReached := 0,
    pvMoves := [], myMovesFromWhiteSide := myMoves }

def auxDecodeLine {M B P : Type} (env : DecodeEnv M B P) (require : Bool)
    (tokens : List Token) (blackToMove : Bool) (depth : Int) (b : B) (p : P)
    (myMoves : List M) : Option (DecState M B P) :=
  auxScan env require tokens false (initDecState blackToMove depth b p myMoves)

/-- Search::AuxEncode_and_Enqueue.  The stop-flag parameter mirrors the
check at lines 356-360 of the source, whose early return is commented
out there (the log message reads: would have quit early since search has
stopped, but decided to take the risk and go on) — hence the flag has no
influence on the result.  The routine publishes (pushes
my_moves_from_the_white_side onto fast_track_extend_and_evaluate_queue_
and the source tag onto source_of_PVs) exactly when at least one pv move
was decoded and the early info-string return was not taken. -/
def auxEncodeAndEnqueue {M B P : Type} (env : DecodeEnv M B P) (stopFlag : Bool)
    (tokens : List Token) (depth : Int) (blackToMove : Bool) (b : B) (p : P)
    (myMoves : List M) (source : Int) (requireSomeDepth : Bool) :
    Option (List M × Int) :=
  let _ := stopFlag
  match auxDecodeLine env requireSomeDepth tokens blackToMove depth b p myMoves with
  | none => none
  | some st => if 0 < st.pvMoves.length then some (st.myMovesFromWhiteSide, source) else none

/-- A concrete collaborator instance used for evaluation: moves are the
token strings themselves, boards and positions carry no data, and the
token bad is the only unparseable move. -/
def envW : DecodeEnv String Unit Unit :=
  { parseMove := fun t _ => if t = "bad" then none else some t,
    getModernMove := fun _ m => m,
    flipped := fun _ => false,
    mirrorMove := fun m => m,
    applyMove := fun _ _ => (),
    mirrorBoard := fun _ => (),
    posStep := fun _ _ => (),
    asPackedInt := fun _ => 0 }

/- ------------------------------------------------------------------
Protocol read loop, Search::DoAuxEngine, auxengine.cc lines 584-688.

Each iteration reads one line.  A line whose first token is bestmove and
whose second token is not info terminates the loop before prev_line is
updated; a bestmove info line (protocol anomaly) is answered with a stop
command and processing continues with the token variable now holding
info.  While the stopping flag is still false, the loop loads the global
stop flag once per line: on the first true load it sends stop unless the
per-session stopped latch auxengine_stopped_[index] is already true, and
sets that latch; on a false load an info line is decoded and enqueued
incrementally.  Once stopping is true, a further line (the helper ought
to have answered bestmove) triggers exactly one extra stop guarded by
second_stopping.  After the loop, a run that ended in the stopping state
returns without publishing; otherwise an empty prev_line returns without
publishing, and else prev_line is decoded with requireDepth false.

The interleaving with the concurrently written global stop flag is
modelled by pairing every line with the value the load would return at
that iteration.
------------------------------------------------------------------- -/

def lineTok1 (l : List Token) : Token := l.headD ""

def lineTok2 (l : List Token) : Token := (l.get? 1).getD ""

/-- A well-formed terminating bestmove line: first token bestmove, second
token not info (the extraction failure on a bare bestmove leaves an empty
second token, which also terminates). -/
def isTermLine (l : List Token) : Bool :=
  lineTok1 l == "bestmove" && !(lineTok2 l == "info")

def isAnomalyLine (l : List Token) : Bool :=
  lineTok1 l == "bestmove" && lineTok2 l == "info"

/-- The value of the token variable after the bestmove handling: the
anomaly branch overwrites it with info, any other non-terminating line
keeps its first token. -/
def pubToken (l : List Token) : Token :=
  if isAnomalyLine l then "info" else lineTok1 l

/-- Which branch of DoAuxEngine issued a stop command: the bestmove info
anomaly reply (line 608), the first stop after observing the global stop
flag (line 627), or the second_stopping resend (line 648). -/
inductive StopKind where
  | anomaly
  | stopSignal
  | secondStop
  deriving DecidableEq

structure DoAuxState where
  prevLine : List Token
  stopping : Bool
  secondStopping : Bool
  auxStopped : Bool
  stops : List StopKind
  published : List (List Token)
  deriving DecidableEq

/-- The loop entry state: prev_line empty, stopping and second_stopping
false, and auxengine_stopped_[index] false (it is forced to false at
lines 577-582 just before the loop). -/
def initDoAuxState : DoAuxState :=
  { prevLine := [], stopping := false, secondStopping := false,
    auxStopped := false, stops := [], published := [] }

/-- The effect of one non-terminating loop iteration on the local and
session state: update prev_line (after answering a bestmove info anomaly
with a stop), then either run the second_stopping branch (already
stopping), observe the stop flag (first true load sends stop unless the
session latch is already set, and sets both flags), or hand an info line
to the incremental decoder. -/
def doAuxStep (l : List Token) (flag : Bool) (st : DoAuxState) : DoAuxState :=
  let st1 : DoAuxState := { st with
    stops := if isAnomalyLine l then st.stops ++ [StopKind.anomaly] else st.stops,
    prevLine := l }
  if st1.stopping then
    if st1.secondStopping then st1
    else { st1 with stops := st1.stops ++ [StopKind.secondStop], secondStopping := true }
  else
    if flag then
      { st1 with
        stopping := true,
        stops := if st1.auxStopped then st1.stops
                 else st1.stops ++ [StopKind.stopSignal],
        auxStopped := true }
    else
      { st1 with
        published := if pubToken l == "info" then st1.published ++ [l]
                     else st1.published }

def doAuxLoop : List (List Token × Bool) → DoAuxState → DoAuxState × Bool
  | [], st => (st, false)
  | (l, flag) :: rest, st =>
    if isTermLine l then (st, true)
    else doAuxLoop rest (doAuxStep l flag st)

/-- The final-publication decision after the loop (lines 654-670): a run
that was stopping returns without publishing; an empty prev_line returns
without publishing; otherwise prev_line is decoded and published. -/
def doAuxFinal (r : DoAuxState × Bool) : Option (List Token) :=
  if r.1.stopping then none
  else if r.1.prevLine = [] then none
  else some r.1.prevLine

/-- The lines of a list that the non-stopping branch hands to the
incremental decoder (token info, including the anomaly lines whose token
variable was overwritten to info). -/
def infoLines (ls : List (List Token)) : List (List Token) :=
  ls.filter (fun l => pubToken l == "info")

def countKind (k : StopKind) (ls : List StopKind) : Nat :=
  (ls.filter (fun x => decide (x = k))).length

/-- The number of second_stopping stops the loop will send once it is in
the stopping state: one when at least one further line arrives before a
terminating bestmove. -/
def secondStopExpected (post : List (List Token × Bool)) : Nat :=
  match post with
  | [] => 0
  | (l, _) :: _ => if isTermLine l then 0 else 1

/- ==================================================================
Theorems
================================================================== -/

/-- C1: for every work queue made of lockstep (node, parent marker) pairs,
the move-boundary purge retains exactly the nodes whose stored parent
marker equals the current root, in their original relative order; on the
queue [(A,root1),(B,root2),(C,root1)] with current root root1 it keeps
A and C and drops B. -/
theorem purge_retains_exactly_matching_parents :
    (∀ (pairs : List (Nat × Nat)) (root : Nat),
      purgeLoop root (flattenPairs pairs) =
        (pairs.filter (fun q => decide (q.2 = root))).map Prod.fst) ∧
    purgeLoop 1 (flattenPairs [(10, 1), (20, 2), (30, 1)]) = [10, 30] := by
  constructor
  · intro pairs root
    induction pairs with
    | nil => rfl
    | cons q rest ih =>
        obtain ⟨n, p⟩ := q
        by_cases h : p = root
        · simp [flattenPairs, purgeLoop, h, ih]
        · simp [flattenPairs, purgeLoop, h, ih]
  · decide

/-- C6 (code bug evidence): the purge latch is never set.  The source line
search_stats_->final_purge_run; (line 280) reads the flag without
assigning, so after a first purge check runs the purge body, the latch is
still false and a second check in the same move runs the purge body
again, contradicting the stated at-most-once guarantee. -/
theorem purge_latch_never_set :
    (purgeCheck 1 (PurgeStats.mk false [10, 1, 20, 2] [])).2 = true ∧
    (purgeCheck 1 (PurgeStats.mk false [10, 1, 20, 2] [])).1.final_purge_run = false ∧
    (purgeCheck 1 (purgeCheck 1 (PurgeStats.mk false [10, 1, 20, 2] [])).1).2 = true := by
  decide

/-- C9: Enqueue with the stop signal set is a silent no-op (state unchanged,
nobody notified); without the stop signal it marks the node pending with
the magic marker 0xfffe, appends the node and its source tag to their
queues, and notifies exactly one waiting worker. -/
theorem auxMaybeEnqueueNode_spec :
    ∀ (st : EnqueueState) (n : Nat) (source : Int),
      auxMaybeEnqueueNode true st n source = (st, 0) ∧
      auxMaybeEnqueueNode false st n source =
        ({ pendingMarker := fun m => if m = n then 0xfffe else st.pendingMarker m,
           queue := st.queue ++ [n],
           sources := st.sources ++ [source] },
         1) := by
  intro st n source
  constructor
  · rfl
  · rfl

/-- Helper: under the three structural conditions of the admission check,
the task is analysed immediately exactly when the sample does not exceed
1/depth. -/
theorem admissionStep_snd_iff (st : WorkQueues) (n : Nat) (depth maxDepth : Int)
    (h1 : 0 < st.nodes.length) (h2 : 0 < depth) (h3 : maxDepth < depth) (x : ℝ) :
    ((admissionStep st n depth maxDepth x).2 = true) ↔ x ≤ (1 : ℝ) / (depth : ℝ) := by
  by_cases hx : (1 : ℝ) / (depth : ℝ) < x
  · have hcond : 0 < st.nodes.length ∧ 0 < depth ∧ maxDepth < depth ∧
        (1 : ℝ) / (depth : ℝ) < x := ⟨h1, h2, h3, hx⟩
    unfold admissionStep
    rw [if_pos hcond]
    exact ⟨fun h => (Bool.false_ne_true h).elim, fun hle => absurd hx (not_lt.mpr hle)⟩
  · have hcond : ¬(0 < st.nodes.length ∧ 0 < depth ∧ maxDepth < depth ∧
        (1 : ℝ) / (depth : ℝ) < x) := by
      rintro ⟨-, -, -, hlt⟩; exact hx hlt
    unfold admissionStep
    rw [if_neg hcond]
    exact ⟨fun _ => le_of_not_lt hx, fun _ => rfl⟩

/-- C2: with a nonempty work queue and 0 < depth > maxDepth, a sample
above 1/depth makes the dequeued task be re-queued at the back (node to the
back of the node queue, its original source tag moved from the front to the
back of the source queue) and the analysis routine return without
analysing; a sample at most 1/depth leaves the queues untouched and the
task is analysed immediately.  Consequently the set of samples in [0,1)
that lead to immediate analysis has measure exactly 1/depth, which is
positive. -/
theorem admission_control_spec (st : WorkQueues) (n : Nat) (depth maxDepth : Int)
    (h1 : 0 < st.nodes.length) (h2 : 0 < depth) (h3 : maxDepth < depth) :
    (∀ x : ℝ, (1 : ℝ) / (depth : ℝ) < x →
      admissionStep st n depth maxDepth x =
        ({ nodes := st.nodes ++ [n],
           sources := st.sources.tail ++ [st.sources.headD 0] }, false)) ∧
    (∀ x : ℝ, x ≤ (1 : ℝ) / (depth : ℝ) →
      admissionStep st n depth maxDepth x = (st, true)) ∧
    MeasureTheory.volume
        {x : ℝ | x ∈ Set.Ico (0 : ℝ) 1 ∧ (admissionStep st n depth maxDepth x).2 = true} =
      ENNReal.ofReal ((1 : ℝ) / (depth : ℝ)) ∧
    0 < (1 : ℝ) / (depth : ℝ) := by
  have hdR : (0 : ℝ) < (depth : ℝ) := by exact_mod_cast h2
  refine ⟨?_, ?_, ?_, by positivity⟩
  · intro x hx
    have hcond : 0 < st.nodes.length ∧ 0 < depth ∧ maxDepth < depth ∧
        (1 : ℝ) / (depth : ℝ) < x := ⟨h1, h2, h3, hx⟩
    unfold admissionStep
    rw [if_pos hcond]
  · intro x hx
    have hcond : ¬(0 < st.nodes.length ∧ 0 < depth ∧ maxDepth < depth ∧
        (1 : ℝ) / (depth : ℝ) < x) := by
      rintro ⟨-, -, -, hlt⟩; exact absurd hlt (not_lt.mpr hx)
    unfold admissionStep
    rw [if_neg hcond]
  · have hset :
        {x : ℝ | x ∈ Set.Ico (0 : ℝ) 1 ∧ (admissionStep st n depth maxDepth x).2 = true} =
          Set.Ico (0 : ℝ) 1 ∩ Set.Iic ((1 : ℝ) / (depth : ℝ)) := by
      ext x
      simp [Set.mem_Ico, Set.mem_Iic, admissionStep_snd_iff st n depth maxDepth h1 h2 h3 x,
        and_assoc]
    rw [hset]
    rcases lt_or_eq_of_le (show (1 : ℤ) ≤ depth from h2) with hgt | heq
    · have hgtR : (1 : ℝ) < (depth : ℝ) := by exact_mod_cast hgt
      have hc1 : (1 : ℝ) / (depth : ℝ) < 1 := by
        rw [div_lt_one hdR]; exact hgtR
      have hico : Set.Ico (0 : ℝ) 1 ∩ Set.Iic ((1 : ℝ) / (depth : ℝ)) =
          Set.Icc (0 : ℝ) ((1 : ℝ) / (depth : ℝ)) := by
        ext x
        simp only [Set.mem_inter_iff, Set.mem_Ico, Set.mem_Iic, Set.mem_Icc]
        constructor
        · rintro ⟨⟨hx0, -⟩, hxc⟩; exact ⟨hx0, hxc⟩
        · rintro ⟨hx0, hxc⟩; exact ⟨⟨hx0, lt_of_le_of_lt hxc hc1⟩, hxc⟩
      rw [hico, Real.volume_Icc, sub_zero]
    · have hdepth1 : (depth : ℝ) = 1 := by exact_mod_cast heq.symm
      have hico : Set.Ico (0 : ℝ) 1 ∩ Set.Iic ((1 : ℝ) / (depth : ℝ)) =
          Set.Ico (0 : ℝ) 1 := by
        rw [hdepth1, div_one]
        ext x
        simp only [Set.mem_inter_iff, Set.mem_Ico, Set.mem_Iic]
        exact ⟨fun h => h.1, fun h => ⟨h, le_of_lt h.2⟩⟩
      rw [hico, Real.volume_Ico, hdepth1, div_one, sub_zero]

/-- C2 witness: the admission theorem instantiated at a queue with one
node, depth 3 and maxDepth 1. -/
theorem admission_control_spec_witness :
    0 < (WorkQueues.mk [5] [7]).nodes.length ∧ (0 : Int) < 3 ∧ (1 : Int) < 3 ∧
    ((∀ x : ℝ, (1 : ℝ) / ((3 : Int) : ℝ) < x →
      admissionStep (WorkQueues.mk [5] [7]) 9 3 1 x =
        ({ nodes := (WorkQueues.mk [5] [7]).nodes ++ [9],
           sources := (WorkQueues.mk [5] [7]).sources.tail ++
             [(WorkQueues.mk [5] [7]).sources.headD 0] }, false)) ∧
    (∀ x : ℝ, x ≤ (1 : ℝ) / ((3 : Int) : ℝ) →
      admissionStep (WorkQueues.mk [5] [7]) 9 3 1 x = (WorkQueues.mk [5] [7], true)) ∧
    MeasureTheory.volume
        {x : ℝ | x ∈ Set.Ico (0 : ℝ) 1 ∧
          (admissionStep (WorkQueues.mk [5] [7]) 9 3 1 x).2 = true} =
      ENNReal.ofReal ((1 : ℝ) / ((3 : Int) : ℝ)) ∧
    0 < (1 : ℝ) / ((3 : Int) : ℝ)) :=
  ⟨by decide, by decide, by decide,
    admission_control_spec (WorkQueues.mk [5] [7]) 9 3 1 (by decide) (by decide) (by decide)⟩


/-- Helper: one scanning step of the outer loop on an arbitrary token,
written out as the if chain the pattern match reduces to. -/
theorem auxScan_cons_false {M B P : Type} (env : DecodeEnv M B P) (require : Bool)
    (t : Token) (rest : List Token) (st : DecState M B P) :
    auxScan env require (t :: rest) false st =
      if t = "info" then auxScan env require rest false st
      else if t = "string" then none
      else if t = "depth" then
        (match rest with
         | [] => some { st with depthReached := 0 }
         | dTok :: rest2 =>
           match parseIntToken dTok with
           | some v => auxScan env require rest2 false { st with depthReached := v }
           | none => some { st with depthReached := 0 })
      else if t = "pv" ∧ (require = false ∨ 14 < st.depthReached) then
        auxScan env require rest true st
      else auxScan env require rest false st := by
  rw [auxScan.eq_def]

/-- Helper: one scanning step inside the pv run, written out as the
conditional the pattern match reduces to. -/
theorem auxScan_cons_true {M B P : Type} (env : DecodeEnv M B P) (require : Bool)
    (t : Token) (rest : List Token) (st : DecState M B P) :
    auxScan env require (t :: rest) true st =
      if st.pvLen < st.depthReached ∧ st.pvLen < 99 then
        (match decodeMoveToken env t st with
         | some st2 => auxScan env require rest true st2
         | none => auxScan env require rest false st)
      else auxScan env require rest false st := by
  rw [auxScan.eq_def]

/-- Helper: a run of tokens containing none of the four keywords is
scanned without any effect on the state. -/
theorem auxScan_skip {M B P : Type} (env : DecodeEnv M B P) (require : Bool) :
    ∀ (ts : List Token) (st : DecState M B P),
      (∀ u ∈ ts, notKeyword u = true) → auxScan env require ts false st = some st := by
  intro ts
  induction ts with
  | nil => intro st _; rfl
  | cons t rest ih =>
    intro st h
    have ht := h t (by simp)
    have hrest : ∀ u ∈ rest, notKeyword u = true := fun u hu => h u (by simp [hu])
    simp only [notKeyword, Bool.not_eq_true', Bool.or_eq_false_iff,
      beq_eq_false_iff_ne, ne_eq] at ht
    obtain ⟨⟨⟨ht1, ht2⟩, ht3⟩, ht4⟩ := ht
    rw [auxScan_cons_false, if_neg ht1, if_neg ht2, if_neg ht3,
      if_neg (by rintro ⟨hpv, -⟩; exact ht4 hpv)]
    exact ih st hrest

/-- Helper: scanning an info token just moves on. -/
theorem auxScan_info {M B P : Type} (env : DecodeEnv M B P) (require : Bool)
    (rest : List Token) (st : DecState M B P) :
    auxScan env require ("info" :: rest) false st = auxScan env require rest false st := by
  rw [auxScan_cons_false, if_pos rfl]

/-- Helper: a depth keyword followed by an integer token records the
reported depth. -/
theorem auxScan_depth {M B P : Type} (env : DecodeEnv M B P) (require : Bool)
    (dTok : Token) (d : Int) (rest : List Token) (st : DecState M B P)
    (hd : parseIntToken dTok = some d) :
    auxScan env require ("depth" :: dTok :: rest) false st =
      auxScan env require rest false { st with depthReached := d } := by
  have h0 : auxScan env require ("depth" :: dTok :: rest) false st =
      (match parseIntToken dTok with
       | some v => auxScan env require rest false { st with depthReached := v }
       | none => some { st with depthReached := 0 }) := by
    rw [auxScan.eq_def]
    rfl
  rw [h0, hd]

/-- Helper: a pv keyword whose quality gate passes switches the scan into
the pv move run. -/
theorem auxScan_pv_gate_true {M B P : Type} (env : DecodeEnv M B P) (require : Bool)
    (rest : List Token) (st : DecState M B P)
    (hg : require = false ∨ 14 < st.depthReached) :
    auxScan env require ("pv" :: rest) false st = auxScan env require rest true st := by
  rw [auxScan_cons_false, if_neg (by decide), if_neg (by decide), if_neg (by decide),
    if_pos ⟨rfl, hg⟩]

/-- Helper: a pv keyword whose quality gate fails is skipped like any
unknown token. -/
theorem auxScan_pv_gate_false {M B P : Type} (env : DecodeEnv M B P) (require : Bool)
    (rest : List Token) (st : DecState M B P)
    (hg : ¬(require = false ∨ 14 < st.depthReached)) :
    auxScan env require ("pv" :: rest) false st = auxScan env require rest false st := by
  rw [auxScan_cons_false, if_neg (by decide), if_neg (by decide), if_neg (by decide),
    if_neg (by rintro ⟨-, h⟩; exact hg h)]

/-- Helper: one successful decode step inside the pv run. -/
theorem auxScan_pv_decode {M B P : Type} (env : DecodeEnv M B P) (require : Bool)
    (t : Token) (rest : List Token) (st st2 : DecState M B P)
    (hb : st.pvLen < st.depthReached ∧ st.pvLen < 99)
    (hdec : decodeMoveToken env t st = some st2) :
    auxScan env require (t :: rest) true st = auxScan env require rest true st2 := by
  rw [auxScan_cons_true, if_pos hb, hdec]

/-- Helper: the fields a successful decode step changes and preserves. -/
theorem decodeMoveToken_some {M B P : Type} (env : DecodeEnv M B P) (t : Token)
    (st st2 : DecState M B P) (h : decodeMoveToken env t st = some st2) :
    st2.depthReached = st.depthReached ∧ st2.pvLen = st.pvLen + 1 ∧
    ∃ x, st2.pvMoves = st.pvMoves ++ [x] := by
  unfold decodeMoveToken at h
  cases hp : env.parseMove t (!st.flip) with
  | none => rw [hp] at h; cases h
  | some m =>
    rw [hp] at h
    injection h with h
    subst h
    exact ⟨rfl, rfl, _, rfl⟩

/-- Helper: in the pv run over keyword-free tokens the scan always
completes, the reported depth does not change, pv_length stays one above
the number of decoded moves, pv_length never exceeds the depth bound or
the 99 cap beyond its starting value, and the decoded moves only grow. -/
theorem auxScan_pv_run {M B P : Type} (env : DecodeEnv M B P) (require : Bool) :
    ∀ (ts : List Token) (st : DecState M B P),
      (∀ u ∈ ts, notKeyword u = true) →
      st.pvLen = st.pvMoves.length + 1 →
      ∃ st2, auxScan env require ts true st = some st2 ∧
        st2.depthReached = st.depthReached ∧
        st2.pvLen = st2.pvMoves.length + 1 ∧
        st2.pvLen ≤ max st.pvLen (min st.depthReached 99) ∧
        st.pvMoves.length ≤ st2.pvMoves.length := by
  intro ts
  induction ts with
  | nil =>
    intro st _ hlen
    exact ⟨st, rfl, rfl, hlen, le_max_left _ _, le_refl _⟩
  | cons t rest ih =>
    intro st h hlen
    have hrest : ∀ u ∈ rest, notKeyword u = true := fun u hu => h u (by simp [hu])
    by_cases hb : st.pvLen < st.depthReached ∧ st.pvLen < 99
    · cases hdec : decodeMoveToken env t st with
      | none =>
        refine ⟨st, ?_, rfl, hlen, le_max_left _ _, le_refl _⟩
        rw [auxScan_cons_true, if_pos hb, hdec]
        exact auxScan_skip env require rest st hrest
      | some stm =>
        obtain ⟨hdr, hlen2, x, hmv⟩ := decodeMoveToken_some env t st stm hdec
        have hlenm : stm.pvLen = stm.pvMoves.length + 1 := by
          rw [hlen2, hmv, hlen]
          push_cast [List.length_append, List.length_singleton]
          ring
        obtain ⟨st2, hrun, hdr2, hlen3, hbound, hmono⟩ := ih stm hrest hlenm
        refine ⟨st2, ?_, by rw [hdr2, hdr], hlen3, ?_, ?_⟩
        · rw [auxScan_pv_decode env require t rest st stm hb hdec]
          exact hrun
        · rw [hdr] at hbound
          rw [hlen2] at hbound
          omega
        · have hlt : st.pvMoves.length < stm.pvMoves.length := by
            rw [hmv]
            simp
          omega
    · refine ⟨st, ?_, rfl, hlen, le_max_left _ _, le_refl _⟩
      rw [auxScan_cons_true, if_neg hb]
      exact auxScan_skip env require rest st hrest

/-- C3: with requireDepth true, an info line whose reported depth is at
most 14 publishes nothing, and the same line shape with reported depth
above 14 and a parseable pv publishes. -/
theorem depth_gating_spec {M B P : Type} (env : DecodeEnv M B P)
    (stopFlag blackToMove : Bool) (depth : Int) (b : B) (p : P) (myMoves : List M)
    (source : Int) (dTok t : Token) (d : Int) (m : M) (rest : List Token)
    (hd : parseIntToken dTok = some d)
    (hp : env.parseMove t (!(xor blackToMove (decide (depth % 2 = 0)))) = some m)
    (ht : notKeyword t = true) (hr : ∀ u ∈ rest, notKeyword u = true) :
    (d ≤ 14 →
      auxEncodeAndEnqueue env stopFlag ("info" :: "depth" :: dTok :: "pv" :: t :: rest)
        depth blackToMove b p myMoves source true = none) ∧
    (14 < d →
      (auxEncodeAndEnqueue env stopFlag ("info" :: "depth" :: dTok :: "pv" :: t :: rest)
        depth blackToMove b p myMoves source true).isSome = true) := by
  have htrest : ∀ u ∈ t :: rest, notKeyword u = true := by
    intro u hu
    rcases List.mem_cons.mp hu with h | h
    · rw [h]; exact ht
    · exact hr u h
  have hscan0 :
      auxDecodeLine env true ("info" :: "depth" :: dTok :: "pv" :: t :: rest)
        blackToMove depth b p myMoves =
      auxScan env true ("pv" :: t :: rest) false
        { initDecState blackToMove depth b p myMoves with depthReached := d } := by
    unfold auxDecodeLine
    rw [auxScan_info, auxScan_depth env true dTok d _ _ hd]
  have hpv1 : ({ initDecState blackToMove depth b p myMoves with
      depthReached := d } : DecState M B P).pvLen = 1 := rfl
  have hdr1 : ({ initDecState blackToMove depth b p myMoves with
      depthReached := d } : DecState M B P).depthReached = d := rfl
  have hmv1 : ({ initDecState blackToMove depth b p myMoves with
      depthReached := d } : DecState M B P).pvMoves = [] := rfl
  have hflip1 : ({ initDecState blackToMove depth b p myMoves with
      depthReached := d } : DecState M B P).flip =
      xor blackToMove (decide (depth % 2 = 0)) := rfl
  generalize hgen : ({ initDecState blackToMove depth b p myMoves with
      depthReached := d } : DecState M B P) = st1 at hscan0 hpv1 hdr1 hmv1 hflip1
  constructor
  · intro hle
    have hg : ¬((true : Bool) = false ∨ 14 < st1.depthReached) := by
      rw [hdr1]
      rintro (h | h)
      · cases h
      · omega
    have hchain :
        auxDecodeLine env true ("info" :: "depth" :: dTok :: "pv" :: t :: rest)
          blackToMove depth b p myMoves = some st1 := by
      rw [hscan0, auxScan_pv_gate_false env true (t :: rest) st1 hg]
      exact auxScan_skip env true (t :: rest) st1 htrest
    unfold auxEncodeAndEnqueue
    rw [hchain]
    simp [hmv1]
  · intro hgt
    have hb : st1.pvLen < st1.depthReached ∧ st1.pvLen < 99 := by
      rw [hpv1, hdr1]
      omega
    have hpm : env.parseMove t (!st1.flip) = some m := by
      rw [hflip1]; exact hp
    cases hdm : decodeMoveToken env t st1 with
    | none =>
      unfold decodeMoveToken at hdm
      rw [hpm] at hdm
      simp at hdm
    | some stm =>
      obtain ⟨hdr2, hlen2, x, hmv2⟩ := decodeMoveToken_some env t st1 stm hdm
      have hlenm : stm.pvLen = stm.pvMoves.length + 1 := by
        rw [hlen2, hmv2, hpv1, hmv1]
        simp
      obtain ⟨st2, hrun, hdr3, hlen3, hbound, hmono⟩ :=
        auxScan_pv_run env true rest stm hr hlenm
      have hpos : 0 < st2.pvMoves.length := by
        have h1 : stm.pvMoves.length = st1.pvMoves.length + 1 := by
          rw [hmv2]; simp
        rw [hmv1] at h1
        omega
      have hchain :
          auxDecodeLine env true ("info" :: "depth" :: dTok :: "pv" :: t :: rest)
            blackToMove depth b p myMoves = some st2 := by
        rw [hscan0,
          auxScan_pv_gate_true env true (t :: rest) st1 (Or.inr (by rw [hdr1]; exact hgt)),
          auxScan_pv_decode env true t rest st1 stm hb hdm]
        exact hrun
      unfold auxEncodeAndEnqueue
      rw [hchain]
      simp [hpos]

/-- C3 witness: the gating theorem applied to a concrete info line with
reported depth 15, together with the gating hypotheses evaluated. -/
theorem depth_gating_spec_witness :
    parseIntToken "15" = some 15 ∧
    envW.parseMove "e2e4" (!(xor false (decide ((0 : Int) % 2 = 0)))) = some "e2e4" ∧
    notKeyword "e2e4" = true ∧
    (∀ u ∈ (["e7e5"] : List Token), notKeyword u = true) ∧
    (((15 : Int) ≤ 14 →
      auxEncodeAndEnqueue envW false
        ("info" :: "depth" :: "15" :: "pv" :: "e2e4" :: ["e7e5"])
        0 false () () [] 3 true = none) ∧
    ((14 : Int) < 15 →
      (auxEncodeAndEnqueue envW false
        ("info" :: "depth" :: "15" :: "pv" :: "e2e4" :: ["e7e5"])
        0 false () () [] 3 true).isSome = true)) :=
  ⟨by decide, by decide, by decide, by decide,
    depth_gating_spec envW false false 0 () () [] 3 "15" "e2e4" 15 "e2e4" ["e7e5"]
      (by decide) (by decide) (by decide) (by decide)⟩

/-- C4: on a decoded pv line the number of decoded moves never exceeds
the helper-reported depth nor the 99-ply cap; parsing stops at the first
unparseable move token without discarding the moves already decoded
(the scan leaves the state untouched and resumes outside the pv run);
concretely, a pv of raw length 30 with reported depth 10 decodes to at
most 10 moves, and a pv whose fourth token is unparseable decodes to
exactly 3 moves. -/
theorem pv_truncation_spec :
    (∀ {M B P : Type} (env : DecodeEnv M B P) (require blackToMove : Bool)
      (depth : Int) (b : B) (p : P) (myMoves : List M) (dTok : Token) (d : Int)
      (moves : List Token) (st2 : DecState M B P),
      parseIntToken dTok = some d →
      (∀ u ∈ moves, notKeyword u = true) →
      auxDecodeLine env require ("info" :: "depth" :: dTok :: "pv" :: moves)
        blackToMove depth b p myMoves = some st2 →
      st2.pvMoves.length ≤ d.toNat ∧ st2.pvMoves.length ≤ 99) ∧
    (∀ {M B P : Type} (env : DecodeEnv M B P) (require : Bool) (t : Token)
      (rest : List Token) (st : DecState M B P),
      decodeMoveToken env t st = none →
      auxScan env require (t :: rest) true st = auxScan env require rest false st) ∧
    (∃ k, (auxDecodeLine envW false ("info" :: "depth" :: "10" :: "pv" :: List.replicate 30 "m")
        false 0 () () []).map (fun s => s.pvMoves.length) = some k ∧ k ≤ 10) ∧
    (auxDecodeLine envW false ["info", "depth", "10", "pv", "a", "b", "c", "bad", "e"]
        false 0 () () []).map (fun s => s.pvMoves.length) = some 3 := by
  refine ⟨?_, ?_, ?_, ?_⟩
  · intro M B P env require blackToMove depth b p myMoves dTok d moves st2 hd hmv hscan
    have hscan0 :
        auxDecodeLine env require ("info" :: "depth" :: dTok :: "pv" :: moves)
          blackToMove depth b p myMoves =
        auxScan env require ("pv" :: moves) false
          { initDecState blackToMove depth b p myMoves with depthReached := d } := by
      unfold auxDecodeLine
      rw [auxScan_info, auxScan_depth env require dTok d _ _ hd]
    have hpv1 : ({ initDecState blackToMove depth b p myMoves with
        depthReached := d } : DecState M B P).pvLen = 1 := rfl
    have hdr1 : ({ initDecState blackToMove depth b p myMoves with
        depthReached := d } : DecState M B P).depthReached = d := rfl
    have hmv1 : ({ initDecState blackToMove depth b p myMoves with
        depthReached := d } : DecState M B P).pvMoves = [] := rfl
    generalize hgen : ({ initDecState blackToMove depth b p myMoves with
        depthReached := d } : DecState M B P) = st1 at hscan0 hpv1 hdr1 hmv1
    by_cases hg : (require = false ∨ 14 < d)
    · have hg1 : require = false ∨ 14 < st1.depthReached := by rw [hdr1]; exact hg
      have hlen1 : st1.pvLen = st1.pvMoves.length + 1 := by
        rw [hpv1, hmv1]; rfl
      obtain ⟨st3, hrun, hdr3, hlen3, hbound, hmono⟩ :=
        auxScan_pv_run env require moves st1 hmv hlen1
      have heq : st3 = st2 := by
        rw [hscan0, auxScan_pv_gate_true env require moves st1 hg1, hrun] at hscan
        exact Option.some.inj hscan
      subst heq
      rw [hpv1, hdr1] at hbound
      omega
    · have hg1 : ¬(require = false ∨ 14 < st1.depthReached) := by rw [hdr1]; exact hg
      have heq : st1 = st2 := by
        rw [hscan0, auxScan_pv_gate_false env require moves st1 hg1,
          auxScan_skip env require moves st1 hmv] at hscan
        exact Option.some.inj hscan
      subst heq
      rw [hmv1]
      simp
  · intro M B P env require t rest st hdec
    by_cases hb : st.pvLen < st.depthReached ∧ st.pvLen < 99
    · rw [auxScan_cons_true, if_pos hb, hdec]
    · rw [auxScan_cons_true, if_neg hb]
  · have hscan0 :
        auxDecodeLine envW false ("info" :: "depth" :: "10" :: "pv" :: List.replicate 30 "m")
          false 0 () () [] =
        auxScan envW false (List.replicate 30 "m") true
          { initDecState false 0 () () ([] : List String) with depthReached := 10 } := by
      unfold auxDecodeLine
      rw [auxScan_info, auxScan_depth envW false "10" 10 _ _ (by decide),
        auxScan_pv_gate_true envW false _ _ (Or.inl rfl)]
    obtain ⟨st3, hrun, hdr3, hlen3, hbound, hmono⟩ :=
      auxScan_pv_run envW false (List.replicate 30 "m")
        ({ initDecState false 0 () () ([] : List String) with depthReached := 10 })
        (by decide) (by decide)
    refine ⟨st3.pvMoves.length, ?_, ?_⟩
    · rw [hscan0, hrun]
      rfl
    · have hb2 : st3.pvLen ≤ max (1 : Int) (min 10 99) := hbound
      omega
  · unfold auxDecodeLine
    rw [auxScan_info, auxScan_depth envW false "10" 10 _ _ (by decide),
      auxScan_pv_gate_true envW false _ _ (Or.inl rfl),
      auxScan_pv_decode envW false "a" ["b", "c", "bad", "e"]
        ({ initDecState false 0 () () ([] : List String) with depthReached := 10 })
        (DecState.mk () () false 2 10 [0] ["a"]) (by decide) (by decide),
      auxScan_pv_decode envW false "b" ["c", "bad", "e"]
        (DecState.mk () () false 2 10 [0] ["a"])
        (DecState.mk () () true 3 10 [0, 0] ["a", "b"]) (by decide) (by decide),
      auxScan_pv_decode envW false "c" ["bad", "e"]
        (DecState.mk () () true 3 10 [0, 0] ["a", "b"])
        (DecState.mk () () false 4 10 [0, 0, 0] ["a", "b", "c"]) (by decide) (by decide)]
    have hbadStep : auxScan envW false ("bad" :: ["e"]) true
        (DecState.mk () () false 4 10 [0, 0, 0] ["a", "b", "c"]) =
        auxScan envW false ["e"] false
          (DecState.mk () () false 4 10 [0, 0, 0] ["a", "b", "c"]) := by
      rw [auxScan_cons_true, if_pos (by decide),
        show decodeMoveToken envW "bad"
          (DecState.mk () () false 4 10 [0, 0, 0] ["a", "b", "c"]) = none from by decide]
    rw [hbadStep, auxScan_skip envW false ["e"] _ (by decide)]
    rfl

/-- C4 witness: the truncation bound applied to a concrete two-move pv
with reported depth 10. -/
theorem pv_truncation_spec_witness :
    parseIntToken "10" = some 10 ∧
    (∀ u ∈ (["a", "b"] : List Token), notKeyword u = true) ∧
    auxDecodeLine envW false ("info" :: "depth" :: "10" :: "pv" :: ["a", "b"])
      false 0 () () [] = some (DecState.mk () () true 3 10 [0, 0] ["a", "b"]) ∧
    ((DecState.mk () () true 3 10 [0, 0] ["a", "b"]).pvMoves.length ≤ (10 : Int).toNat ∧
     (DecState.mk () () true 3 10 [0, 0] ["a", "b"]).pvMoves.length ≤ 99) :=
  ⟨by decide, by decide, by decide,
    pv_truncation_spec.1 envW false false 0 () () [] "10" 10 ["a", "b"]
      (DecState.mk () () true 3 10 [0, 0] ["a", "b"])
      (by decide) (by decide) (by decide)⟩

/-- C5 counterexample: invoked while the global stop flag is set, the
decode-and-publish routine still publishes a qualifying line, because
the early return on the stop flag is commented out in the source
(auxengine.cc lines 356-360). -/
theorem auxEncode_publishes_despite_stop :
    (auxEncodeAndEnqueue envW true ["info", "depth", "20", "pv", "e2e4"]
      0 false () () [] 4 true).isSome = true := by
  decide

/-- C5 amended: the decode-and-publish routine does not consult the stop
flag at all; invoked while the stop flag is set it behaves exactly as
when it is clear, so discarding the results of a stopped query is
enforced only by the caller (the stopping path of DoAuxEngine), not by
this routine. -/
theorem auxEncode_stop_flag_irrelevant :
    ∀ {M B P : Type} (env : DecodeEnv M B P) (s1 s2 : Bool) (tokens : List Token)
      (depth : Int) (blackToMove : Bool) (b : B) (p : P) (myMoves : List M)
      (source : Int) (req : Bool),
      auxEncodeAndEnqueue env s1 tokens depth blackToMove b p myMoves source req =
      auxEncodeAndEnqueue env s2 tokens depth blackToMove b p myMoves source req := by
  intro M B P env s1 s2 tokens depth blackToMove b p myMoves source req
  rfl

/-- Helper: counting a stop kind distributes over append. -/
theorem countKind_append (k : StopKind) (xs ys : List StopKind) :
    countKind k (xs ++ ys) = countKind k xs + countKind k ys := by
  unfold countKind
  rw [List.filter_append, List.length_append]

/-- Helper: a differing single stop command does not change a count. -/
theorem countKind_singleton_ne (k j : StopKind) (h : j ≠ k) : countKind k [j] = 0 := by
  simp [countKind, h]

/-- Helper: a matching single stop command counts once. -/
theorem countKind_singleton_eq (k : StopKind) : countKind k [k] = 1 := by
  simp [countKind]

/-- Helper: an optional anomaly stop does not change the other counts. -/
theorem countKind_anomaly_pad (k : StopKind) (hk : StopKind.anomaly ≠ k)
    (xs : List StopKind) (b : Bool) :
    countKind k (if b then xs ++ [StopKind.anomaly] else xs) = countKind k xs := by
  cases b
  · rfl
  · rw [if_pos rfl, countKind_append, countKind_singleton_ne _ _ hk]
    omega

/-- Helper: the published lines of a cons split off the head when its
token is info. -/
theorem infoLines_cons (l : List Token) (ls : List (List Token)) :
    infoLines (l :: ls) =
      (if pubToken l == "info" then [l] else []) ++ infoLines ls := by
  unfold infoLines
  rw [List.filter_cons]
  cases h : pubToken l == "info" <;> simp [h]

/-- Helper: the loop on a terminating bestmove line breaks at once. -/
theorem doAuxLoop_cons_term (l : List Token) (flag : Bool)
    (rest : List (List Token × Bool)) (st : DoAuxState) (hl : isTermLine l = true) :
    doAuxLoop ((l, flag) :: rest) st = (st, true) := by
  rw [doAuxLoop.eq_def]
  simp [hl]

/-- Helper: the loop on a non-terminating line performs one step. -/
theorem doAuxLoop_cons_step (l : List Token) (flag : Bool)
    (rest : List (List Token × Bool)) (st : DoAuxState) (hl : isTermLine l = false) :
    doAuxLoop ((l, flag) :: rest) st = doAuxLoop rest (doAuxStep l flag st) := by
  rw [doAuxLoop.eq_def]
  simp [hl]

/-- Helper: once stopping and second_stopping both hold, the rest of the
loop publishes nothing and sends no further stop-signal or second stops. -/
theorem doAuxLoop_frozen :
    ∀ (lines : List (List Token × Bool)) (st : DoAuxState),
      st.stopping = true → st.secondStopping = true →
      (doAuxLoop lines st).1.published = st.published ∧
      countKind StopKind.stopSignal (doAuxLoop lines st).1.stops =
        countKind StopKind.stopSignal st.stops ∧
      countKind StopKind.secondStop (doAuxLoop lines st).1.stops =
        countKind StopKind.secondStop st.stops ∧
      (doAuxLoop lines st).1.stopping = true := by
  intro lines
  induction lines with
  | nil => intro st h1 h2; exact ⟨rfl, rfl, rfl, h1⟩
  | cons q rest ih =>
    intro st h1 h2
    obtain ⟨l, flag⟩ := q
    cases hterm : isTermLine l with
    | true =>
      rw [doAuxLoop_cons_term l flag rest st hterm]
      exact ⟨rfl, rfl, rfl, h1⟩
    | false =>
      rw [doAuxLoop_cons_step l flag rest st hterm]
      have h1s : (doAuxStep l flag st).stopping = true := by simp [doAuxStep, h1, h2]
      have h2s : (doAuxStep l flag st).secondStopping = true := by simp [doAuxStep, h1, h2]
      have hpub : (doAuxStep l flag st).published = st.published := by
        simp [doAuxStep, h1, h2]
      have hstops : (doAuxStep l flag st).stops =
          if isAnomalyLine l then st.stops ++ [StopKind.anomaly] else st.stops := by
        simp [doAuxStep, h1, h2]
      obtain ⟨i1, i2, i3, i4⟩ := ih (doAuxStep l flag st) h1s h2s
      refine ⟨by rw [i1, hpub], ?_, ?_, i4⟩
      · rw [i2, hstops, countKind_anomaly_pad _ (by decide)]
      · rw [i3, hstops, countKind_anomaly_pad _ (by decide)]

/-- Helper: once stopping holds but second_stopping does not, the rest of
the loop publishes nothing, sends no stop-signal stop, and sends exactly
one second stop when a further non-terminating line arrives. -/
theorem doAuxLoop_second_stop (lines : List (List Token × Bool)) (st : DoAuxState)
    (h1 : st.stopping = true) (h2 : st.secondStopping = false) :
    (doAuxLoop lines st).1.published = st.published ∧
    countKind StopKind.stopSignal (doAuxLoop lines st).1.stops =
      countKind StopKind.stopSignal st.stops ∧
    countKind StopKind.secondStop (doAuxLoop lines st).1.stops =
      countKind StopKind.secondStop st.stops + secondStopExpected lines ∧
    (doAuxLoop lines st).1.stopping = true := by
  cases lines with
  | nil => exact ⟨rfl, rfl, rfl, h1⟩
  | cons q rest =>
    obtain ⟨l, flag⟩ := q
    cases hterm : isTermLine l with
    | true =>
      rw [doAuxLoop_cons_term l flag rest st hterm]
      exact ⟨rfl, rfl, by simp [secondStopExpected, hterm], h1⟩
    | false =>
      rw [doAuxLoop_cons_step l flag rest st hterm]
      have h1s : (doAuxStep l flag st).stopping = true := by simp [doAuxStep, h1, h2]
      have h2s : (doAuxStep l flag st).secondStopping = true := by simp [doAuxStep, h1, h2]
      have hpub : (doAuxStep l flag st).published = st.published := by
        simp [doAuxStep, h1, h2]
      have hstops : (doAuxStep l flag st).stops =
          (if isAnomalyLine l then st.stops ++ [StopKind.anomaly] else st.stops) ++
            [StopKind.secondStop] := by
        simp [doAuxStep, h1, h2]
      obtain ⟨f1, f2, f3, f4⟩ := doAuxLoop_frozen rest (doAuxStep l flag st) h1s h2s
      refine ⟨by rw [f1, hpub], ?_, ?_, f4⟩
      · rw [f2, hstops, countKind_append, countKind_singleton_ne _ _ (by decide),
          countKind_anomaly_pad _ (by decide)]
        omega
      · rw [f3, hstops, countKind_append, countKind_singleton_eq,
          countKind_anomaly_pad _ (by decide)]
        show _ + 1 = _ + (if isTermLine l = true then 0 else 1)
        rw [hterm]
        simp

/-- Helper: a run whose stop flag loads are false up to the first true
load on a non-terminating line ends up stopping, publishes exactly the
info lines seen before the stop was observed, sends exactly one
stop-signal stop, and sends a second stop exactly when a further
non-terminating line follows. -/
theorem doAuxLoop_stop_observed :
    ∀ (pre : List (List Token × Bool)) (l : List Token)
      (post : List (List Token × Bool)) (st : DoAuxState),
      st.stopping = false → st.secondStopping = false → st.auxStopped = false →
      (∀ q ∈ pre, q.2 = false) → (∀ q ∈ pre, isTermLine q.1 = false) →
      isTermLine l = false →
      (doAuxLoop (pre ++ (l, true) :: post) st).1.stopping = true ∧
      (doAuxLoop (pre ++ (l, true) :: post) st).1.published =
        st.published ++ infoLines (pre.map Prod.fst) ∧
      countKind StopKind.stopSignal (doAuxLoop (pre ++ (l, true) :: post) st).1.stops =
        countKind StopKind.stopSignal st.stops + 1 ∧
      countKind StopKind.secondStop (doAuxLoop (pre ++ (l, true) :: post) st).1.stops =
        countKind StopKind.secondStop st.stops + secondStopExpected post := by
  intro pre
  induction pre with
  | nil =>
    intro l post st hs hss hax hpf hpt hl
    rw [List.nil_append, doAuxLoop_cons_step l true post st hl]
    have h1s : (doAuxStep l true st).stopping = true := by simp [doAuxStep, hs]
    have h2s : (doAuxStep l true st).secondStopping = false := by
      simp [doAuxStep, hs, hss]
    have hpub : (doAuxStep l true st).published = st.published := by
      simp [doAuxStep, hs]
    have hstops : (doAuxStep l true st).stops =
        (if isAnomalyLine l then st.stops ++ [StopKind.anomaly] else st.stops) ++
          [StopKind.stopSignal] := by
      simp [doAuxStep, hs, hax]
    obtain ⟨f1, f2, f3, f4⟩ := doAuxLoop_second_stop post (doAuxStep l true st) h1s h2s
    refine ⟨f4, ?_, ?_, ?_⟩
    · rw [f1, hpub]
      simp [infoLines]
    · rw [f2, hstops, countKind_append, countKind_singleton_eq,
        countKind_anomaly_pad _ (by decide)]
    · rw [f3, hstops, countKind_append, countKind_singleton_ne _ _ (by decide),
        countKind_anomaly_pad _ (by decide)]
      omega
  | cons q pre2 ih =>
    intro l post st hs hss hax hpf hpt hl
    obtain ⟨lq, fq⟩ := q
    have hfq : fq = false := hpf (lq, fq) (by simp)
    have htq : isTermLine lq = false := hpt (lq, fq) (by simp)
    subst hfq
    rw [List.cons_append, doAuxLoop_cons_step lq false _ st htq]
    have hs2 : (doAuxStep lq false st).stopping = false := by simp [doAuxStep, hs, hss]
    have hss2 : (doAuxStep lq false st).secondStopping = false := by
      simp [doAuxStep, hs, hss]
    have hax2 : (doAuxStep lq false st).auxStopped = false := by
      simp [doAuxStep, hs, hax]
    have hpf2 : ∀ q2 ∈ pre2, q2.2 = false := fun q2 hq => hpf q2 (by simp [hq])
    have hpt2 : ∀ q2 ∈ pre2, isTermLine q2.1 = false := fun q2 hq => hpt q2 (by simp [hq])
    obtain ⟨g1, g2, g3, g4⟩ :=
      ih l post (doAuxStep lq false st) hs2 hss2 hax2 hpf2 hpt2 hl
    have hpub : (doAuxStep lq false st).published =
        st.published ++ (if pubToken lq == "info" then [lq] else []) := by
      cases h : pubToken lq == "info" <;> simp [doAuxStep, hs, h]
    have hstops : (doAuxStep lq false st).stops =
        if isAnomalyLine lq then st.stops ++ [StopKind.anomaly] else st.stops := by
      simp [doAuxStep, hs]
    refine ⟨g1, ?_, ?_, ?_⟩
    · rw [g2, hpub, List.map_cons, infoLines_cons, List.append_assoc]
    · rw [g3, hstops, countKind_anomaly_pad _ (by decide)]
    · rw [g4, hstops, countKind_anomaly_pad _ (by decide)]

/-- Helper: a run whose stop flag loads are all false up to a terminating
bestmove line breaks there without stopping; prev_line is then the last
line read before the terminator and the published lines are the info
lines before it. -/
theorem doAuxLoop_terminates_normally :
    ∀ (pre : List (List Token × Bool)) (bm : List Token) (fb : Bool)
      (post : List (List Token × Bool)) (st : DoAuxState),
      st.stopping = false →
      (∀ q ∈ pre, q.2 = false) → (∀ q ∈ pre, isTermLine q.1 = false) →
      isTermLine bm = true →
      (doAuxLoop (pre ++ (bm, fb) :: post) st).2 = true ∧
      (doAuxLoop (pre ++ (bm, fb) :: post) st).1.stopping = false ∧
      (doAuxLoop (pre ++ (bm, fb) :: post) st).1.prevLine =
        (pre.map Prod.fst).getLastD st.prevLine ∧
      (doAuxLoop (pre ++ (bm, fb) :: post) st).1.published =
        st.published ++ infoLines (pre.map Prod.fst) := by
  intro pre
  induction pre with
  | nil =>
    intro bm fb post st hs hpf hpt hbm
    rw [List.nil_append, doAuxLoop_cons_term bm fb post st hbm]
    exact ⟨rfl, hs, rfl, by simp [infoLines]⟩
  | cons q pre2 ih =>
    intro bm fb post st hs hpf hpt hbm
    obtain ⟨lq, fq⟩ := q
    have hfq : fq = false := hpf (lq, fq) (by simp)
    have htq : isTermLine lq = false := hpt (lq, fq) (by simp)
    subst hfq
    rw [List.cons_append, doAuxLoop_cons_step lq false _ st htq]
    have hs2 : (doAuxStep lq false st).stopping = false := by simp [doAuxStep, hs]
    have hpf2 : ∀ q2 ∈ pre2, q2.2 = false := fun q2 hq => hpf q2 (by simp [hq])
    have hpt2 : ∀ q2 ∈ pre2, isTermLine q2.1 = false := fun q2 hq => hpt q2 (by simp [hq])
    obtain ⟨g1, g2, g3, g4⟩ := ih bm fb post (doAuxStep lq false st) hs2 hpf2 hpt2 hbm
    have hprev : (doAuxStep lq false st).prevLine = lq := by simp [doAuxStep, hs]
    have hpub : (doAuxStep lq false st).published =
        st.published ++ (if pubToken lq == "info" then [lq] else []) := by
      cases h : pubToken lq == "info" <;> simp [doAuxStep, hs, h]
    refine ⟨g1, g2, ?_, ?_⟩
    · rw [g3, hprev, List.map_cons, List.getLastD_cons]
    · rw [g4, hpub, List.map_cons, infoLines_cons, List.append_assoc]

/-- Helper: the last element with a default either is the default or
belongs to the list. -/
theorem getLastD_mem_or (ls : List (List Token)) (d : List Token) :
    ls.getLastD d = d ∨ ls.getLastD d ∈ ls := by
  induction ls generalizing d with
  | nil => exact Or.inl rfl
  | cons a rest ih =>
    right
    rw [List.getLastD_cons]
    rcases ih a with h | h
    · rw [h]
      exact List.mem_cons_self a rest
    · exact List.mem_cons_of_mem a h

/-- C7: a query that reaches Done through Stopping (a true stop load was
observed on a non-terminating line while streaming) ends with the
stopping flag set, publishes no final line (the post-loop decode is
skipped), and its incremental publications are exactly the info lines
read strictly before the stop was observed. -/
theorem stopped_query_discards_final
    (pre : List (List Token × Bool)) (l : List Token) (post : List (List Token × Bool))
    (hpf : ∀ q ∈ pre, q.2 = false) (hpt : ∀ q ∈ pre, isTermLine q.1 = false)
    (hl : isTermLine l = false) :
    (doAuxLoop (pre ++ (l, true) :: post) initDoAuxState).1.stopping = true ∧
    doAuxFinal (doAuxLoop (pre ++ (l, true) :: post) initDoAuxState) = none ∧
    (doAuxLoop (pre ++ (l, true) :: post) initDoAuxState).1.published =
      infoLines (pre.map Prod.fst) := by
  obtain ⟨h1, h2, h3, h4⟩ :=
    doAuxLoop_stop_observed pre l post initDoAuxState rfl rfl rfl hpf hpt hl
  refine ⟨h1, ?_, ?_⟩
  · unfold doAuxFinal
    rw [h1]
    rfl
  · rw [h2]
    rfl

/-- C7 witness: a run with one incremental info line, then an info line
at which the stop flag is observed, then a terminating bestmove. -/
theorem stopped_query_discards_final_witness :
    (∀ q ∈ ([(["info", "depth", "20", "pv", "e2e4"], false)] :
        List (List Token × Bool)), q.2 = false) ∧
    (∀ q ∈ ([(["info", "depth", "20", "pv", "e2e4"], false)] :
        List (List Token × Bool)), isTermLine q.1 = false) ∧
    isTermLine ["info", "depth", "21", "pv", "e2e4"] = false ∧
    ((doAuxLoop ([(["info", "depth", "20", "pv", "e2e4"], false)] ++
        (["info", "depth", "21", "pv", "e2e4"], true) ::
        [(["bestmove", "e2e4"], true)]) initDoAuxState).1.stopping = true ∧
    doAuxFinal (doAuxLoop ([(["info", "depth", "20", "pv", "e2e4"], false)] ++
        (["info", "depth", "21", "pv", "e2e4"], true) ::
        [(["bestmove", "e2e4"], true)]) initDoAuxState) = none ∧
    (doAuxLoop ([(["info", "depth", "20", "pv", "e2e4"], false)] ++
        (["info", "depth", "21", "pv", "e2e4"], true) ::
        [(["bestmove", "e2e4"], true)]) initDoAuxState).1.published =
      infoLines (([(["info", "depth", "20", "pv", "e2e4"], false)] :
        List (List Token × Bool)).map Prod.fst)) :=
  ⟨by decide, by decide, by decide,
    stopped_query_discards_final
      [(["info", "depth", "20", "pv", "e2e4"], false)]
      ["info", "depth", "21", "pv", "e2e4"]
      [(["bestmove", "e2e4"], true)]
      (by decide) (by decide) (by decide)⟩

/-- C8: once the stop signal is observed, the stop-signal branch sends
exactly one stop for the query; afterwards a further non-terminating
line triggers exactly one additional stop through the second_stopping
latch and a terminating bestmove line triggers none, so that branch
never sends more than one. -/
theorem stop_idempotence_spec
    (pre : List (List Token × Bool)) (l : List Token) (post : List (List Token × Bool))
    (hpf : ∀ q ∈ pre, q.2 = false) (hpt : ∀ q ∈ pre, isTermLine q.1 = false)
    (hl : isTermLine l = false) :
    countKind StopKind.stopSignal
      (doAuxLoop (pre ++ (l, true) :: post) initDoAuxState).1.stops = 1 ∧
    countKind StopKind.secondStop
      (doAuxLoop (pre ++ (l, true) :: post) initDoAuxState).1.stops =
      secondStopExpected post ∧
    secondStopExpected post ≤ 1 := by
  obtain ⟨h1, h2, h3, h4⟩ :=
    doAuxLoop_stop_observed pre l post initDoAuxState rfl rfl rfl hpf hpt hl
  refine ⟨?_, ?_, ?_⟩
  · rw [h3]
    have hz : countKind StopKind.stopSignal initDoAuxState.stops = 0 := rfl
    rw [hz]
  · rw [h4]
    have hz : countKind StopKind.secondStop initDoAuxState.stops = 0 := rfl
    rw [hz]
    exact Nat.zero_add _
  · cases post with
    | nil => decide
    | cons q rest =>
      obtain ⟨l2, f2⟩ := q
      show (if isTermLine l2 = true then 0 else 1) ≤ 1
      split <;> omega

/-- C8 witness: the stop is observed on an info line and the helper then
sends a further non-terminating info line before its bestmove. -/
theorem stop_idempotence_spec_witness :
    (∀ q ∈ ([] : List (List Token × Bool)), q.2 = false) ∧
    (∀ q ∈ ([] : List (List Token × Bool)), isTermLine q.1 = false) ∧
    isTermLine ["info", "depth", "5"] = false ∧
    (countKind StopKind.stopSignal
      (doAuxLoop (([] : List (List Token × Bool)) ++ (["info", "depth", "5"], true) ::
        [(["info", "depth", "6"], true), (["bestmove", "a1a2"], true)])
          initDoAuxState).1.stops = 1 ∧
    countKind StopKind.secondStop
      (doAuxLoop (([] : List (List Token × Bool)) ++ (["info", "depth", "5"], true) ::
        [(["info", "depth", "6"], true), (["bestmove", "a1a2"], true)])
          initDoAuxState).1.stops =
      secondStopExpected [(["info", "depth", "6"], true), (["bestmove", "a1a2"], true)] ∧
    secondStopExpected [(["info", "depth", "6"], true), (["bestmove", "a1a2"], true)] ≤ 1) :=
  ⟨by decide, by decide, by decide,
    stop_idempotence_spec [] ["info", "depth", "5"]
      [(["info", "depth", "6"], true), (["bestmove", "a1a2"], true)]
      (by decide) (by decide) (by decide)⟩

/-- C10: a query that terminates normally (all stop loads false, first
well-formed bestmove line breaks the loop) decodes as its final
publication the last line received before the terminating bestmove and
never the bestmove line itself; with no preceding line, prev_line is
empty and nothing is published. -/
theorem final_decode_uses_prev_line
    (pre : List (List Token × Bool)) (bm : List Token) (fb : Bool)
    (post : List (List Token × Bool))
    (hpf : ∀ q ∈ pre, q.2 = false) (hpt : ∀ q ∈ pre, isTermLine q.1 = false)
    (hbm : isTermLine bm = true) :
    (doAuxLoop (pre ++ (bm, fb) :: post) initDoAuxState).2 = true ∧
    doAuxFinal (doAuxLoop (pre ++ (bm, fb) :: post) initDoAuxState) =
      (if (pre.map Prod.fst).getLastD [] = [] then none
       else some ((pre.map Prod.fst).getLastD [])) ∧
    (pre = [] → doAuxFinal (doAuxLoop (pre ++ (bm, fb) :: post) initDoAuxState) = none) ∧
    (∀ lf, doAuxFinal (doAuxLoop (pre ++ (bm, fb) :: post) initDoAuxState) = some lf →
      lf ∈ pre.map Prod.fst) := by
  obtain ⟨h1, h2, h3, h4⟩ :=
    doAuxLoop_terminates_normally pre bm fb post initDoAuxState rfl hpf hpt hbm
  have h3i : (doAuxLoop (pre ++ (bm, fb) :: post) initDoAuxState).1.prevLine =
      (pre.map Prod.fst).getLastD [] := by
    rw [h3]
    rfl
  have hfin : doAuxFinal (doAuxLoop (pre ++ (bm, fb) :: post) initDoAuxState) =
      (if (pre.map Prod.fst).getLastD [] = [] then none
       else some ((pre.map Prod.fst).getLastD [])) := by
    unfold doAuxFinal
    rw [h2, h3i]
    simp
  refine ⟨h1, hfin, ?_, ?_⟩
  · intro hpre
    subst hpre
    rw [hfin]
    rfl
  · intro lf hlf
    rw [hfin] at hlf
    by_cases hz : (pre.map Prod.fst).getLastD [] = []
    · rw [if_pos hz] at hlf
      cases hlf
    · rw [if_neg hz] at hlf
      injection hlf with hlf
      subst hlf
      rcases getLastD_mem_or (pre.map Prod.fst) [] with h | h
      · exact absurd h hz
      · exact h

/-- C10 witness: one info line before the terminating bestmove; the final
decode takes that line, not the bestmove. -/
theorem final_decode_uses_prev_line_witness :
    (∀ q ∈ ([(["info", "depth", "20", "pv", "e2e4", "e7e5"], false)] :
        List (List Token × Bool)), q.2 = false) ∧
    (∀ q ∈ ([(["info", "depth", "20", "pv", "e2e4", "e7e5"], false)] :
        List (List Token × Bool)), isTermLine q.1 = false) ∧
    isTermLine ["bestmove", "e2e4"] = true ∧
    ((doAuxLoop ([(["info", "depth", "20", "pv", "e2e4", "e7e5"], false)] ++
        (["bestmove", "e2e4"], false) :: []) initDoAuxState).2 = true ∧
    doAuxFinal (doAuxLoop ([(["info", "depth", "20", "pv", "e2e4", "e7e5"], false)] ++
        (["bestmove", "e2e4"], false) :: []) initDoAuxState) =
      (if (([(["info", "depth", "20", "pv", "e2e4", "e7e5"], false)] :
          List (List Token × Bool)).map Prod.fst).getLastD [] = [] then none
       else some ((([(["info", "depth", "20", "pv", "e2e4", "e7e5"], false)] :
          List (List Token × Bool)).map Prod.fst).getLastD [])) ∧
    (([(["info", "depth", "20", "pv", "e2e4", "e7e5"], false)] :
        List (List Token × Bool)) = [] →
      doAuxFinal (doAuxLoop ([(["info", "depth", "20", "pv", "e2e4", "e7e5"], false)] ++
        (["bestmove", "e2e4"], false) :: []) initDoAuxState) = none) ∧
    (∀ lf, doAuxFinal (doAuxLoop ([(["info", "depth", "20", "pv", "e2e4", "e7e5"], false)] ++
        (["bestmove", "e2e4"], false) :: []) initDoAuxState) = some lf →
      lf ∈ ([(["info", "depth", "20", "pv", "e2e4", "e7e5"], false)] :
        List (List Token × Bool)).map Prod.fst)) :=
  ⟨by decide, by decide, by decide,
    final_decode_uses_prev_line
      [(["info", "depth", "20", "pv", "e2e4", "e7e5"], false)]
      ["bestmove", "e2e4"] false []
      (by decide) (by decide) (by decide)⟩

end AuxEngineSpec
